import Mathlib

/-!
Verification of the LWC/React interop bundle-packaging pipeline.

This file gives a shallow embedding of the chunked base64 encoding scheme of
`scripts/lwcWrapperGenerator.js` (`generateJavaScriptFile`), the style
collection fallback (`compileStyles` / `findCSSFiles`), the temp-directory
discipline of the webpack stages, the auxiliary library-wrapper generation
(`generateReactJSFile` / `generateReactDOMJSFile`), and the runtime bridge
template `scripts/templates/lwcWrapper.js` (`renderedCallback`), and proves
the specified properties about these embeddings.

Bytes are modelled as `Nat < 256`; encoded text as `List Char`; the runtime
bridge as a state-transition function over an explicit window/component state,
with the points at which the real code can throw captured by an environment
record, and JavaScript try/catch modelled by total functions that record the
caught error as an observable event.
-/

/-! ## Base64 codec, as used by `Buffer.from(s).toString("base64")` / `atob` -/

/-- The standard base64 alphabet. -/
def b64Alphabet : List Char :=
  "ABCDEFGHIJKLMNOPQRSTUVWXYZabcdefghijklmnopqrstuvwxyz0123456789+/".toList

/-- Character for a 6-bit value. -/
def b64char (n : Nat) : Char := b64Alphabet.getD n (Char.ofNat 63)

/-- 6-bit value of an alphabet character. -/
def b64index (c : Char) : Nat := b64Alphabet.indexOf c

/-- The padding character. -/
def b64pad : Char := Char.ofNat 61

/-- Base64-encode a byte sequence, with `=` padding, as
`Buffer.from(compiledReact).toString("base64")` does
(src/scripts/lwcWrapperGenerator.js line 353). -/
def b64encode : List Nat → List Char
  | [] => []
  | [a] => [b64char (a / 4), b64char (a % 4 * 16), b64pad, b64pad]
  | [a, b] => [b64char (a / 4), b64char (a % 4 * 16 + b / 16), b64char (b % 16 * 4), b64pad]
  | a :: b :: c :: rest =>
      b64char (a / 4) :: b64char (a % 4 * 16 + b / 16) ::
      b64char (b % 16 * 4 + c / 64) :: b64char (c % 64) :: b64encode rest

/-- Base64-decode, as the browser's `atob` does on the generated wrapper's
reassembled chunk text (the `decodedCode` step of the generated
`COMPILED_REACT_FUNC`, src/scripts/lwcWrapperGenerator.js lines 383-393). -/
def b64decode : List Char → List Nat
  | c1 :: c2 :: c3 :: c4 :: rest =>
      if c3 = b64pad then
        [b64index c1 * 4 + b64index c2 / 16]
      else if c4 = b64pad then
        [b64index c1 * 4 + b64index c2 / 16,
         b64index c2 % 16 * 16 + b64index c3 / 4]
      else
        (b64index c1 * 4 + b64index c2 / 16) ::
        (b64index c2 % 16 * 16 + b64index c3 / 4) ::
        (b64index c3 % 4 * 64 + b64index c4) :: b64decode rest
  | _ => []

theorem b64index_b64char : ∀ n, n < 64 → b64index (b64char n) = n := by decide

theorem b64char_ne_pad : ∀ n, n < 64 → b64char n ≠ b64pad := by decide

/-- Decoding inverts encoding on byte sequences. -/
theorem b64decode_b64encode (l : List Nat) (h : ∀ x ∈ l, x < 256) :
    b64decode (b64encode l) = l := by
  induction l using b64encode.induct with
  | case1 => simp [b64encode, b64decode]
  | case2 a =>
      have ha : a < 256 := h a (by simp)
      have h1 := b64index_b64char (a / 4) (by omega)
      have h2 := b64index_b64char (a % 4 * 16) (by omega)
      simp only [b64encode, b64decode, if_true, h1, h2, List.cons.injEq, and_true]
      omega
  | case3 a b =>
      have ha : a < 256 := h a (by simp)
      have hb : b < 256 := h b (by simp)
      have h1 := b64index_b64char (a / 4) (by omega)
      have h2 := b64index_b64char (a % 4 * 16 + b / 16) (by omega)
      have h3 := b64index_b64char (b % 16 * 4) (by omega)
      have hne := b64char_ne_pad (b % 16 * 4) (by omega)
      simp only [b64encode, b64decode, if_neg hne, if_true, h1, h2, h3,
        List.cons.injEq, and_true]
      omega
  | case4 a b c rest IH =>
      have ha : a < 256 := h a (by simp)
      have hb : b < 256 := h b (by simp)
      have hc : c < 256 := h c (by simp)
      have h1 := b64index_b64char (a / 4) (by omega)
      have h2 := b64index_b64char (a % 4 * 16 + b / 16) (by omega)
      have h3 := b64index_b64char (b % 16 * 4 + c / 64) (by omega)
      have h4 := b64index_b64char (c % 64) (by omega)
      have hne3 := b64char_ne_pad (b % 16 * 4 + c / 64) (by omega)
      have hne4 := b64char_ne_pad (c % 64) (by omega)
      have hrest : ∀ x ∈ rest, x < 256 := by
        intro x hx; exact h x (by simp [hx])
      simp only [b64encode, b64decode, if_neg hne3, if_neg hne4, IH hrest,
        List.cons.injEq, and_true]
      omega

/-- Length of a base64 encoding: four characters per three-byte group,
counting the padded final group. -/
theorem b64encode_length (l : List Nat) :
    (b64encode l).length = 4 * ((l.length + 2) / 3) := by
  induction l using b64encode.induct with
  | case1 => simp [b64encode]
  | case2 a => simp [b64encode]
  | case3 a b => simp [b64encode]
  | case4 a b c rest IH =>
      simp only [b64encode, List.length_cons, IH, List.length_cons]
      have : (rest.length + 3 + 2) / 3 = (rest.length + 2) / 3 + 1 := by omega
      rw [this]
      ring

/-! ## Chunking

`generateJavaScriptFile` (src/scripts/lwcWrapperGenerator.js lines 355-360):

  const chunkSize = 800000;
  const chunks = [];
  for (let i = 0; i < encodedReact.length; i += chunkSize) {
    chunks.push(encodedReact.slice(i, i + chunkSize));
  }

`chunksOfP k` slices a list into consecutive segments of size `k + 1`
(formulated with `k + 1` so the slice size is positive by construction). -/

def chunksOfP (k : Nat) : List α → List (List α)
  | [] => []
  | x :: xs => ((x :: xs).take (k + 1)) :: chunksOfP k ((x :: xs).drop (k + 1))
termination_by l => l.length
decreasing_by
  simp only [List.length_drop, List.length_cons]
  omega

/-- The slice size used by the generator. -/
def chunkSize : Nat := 800000

/-- The chunk list the generator builds from the encoded bundle text. -/
def chunks (l : List α) : List (List α) := chunksOfP (chunkSize - 1) l

theorem chunksOfP_eq_nil_iff (k : Nat) (l : List α) :
    chunksOfP k l = [] ↔ l = [] := by
  cases l with
  | nil => simp [chunksOfP]
  | cons x xs => simp [chunksOfP]

theorem chunksOfP_cons (k : Nat) (l : List α) (h : l ≠ []) :
    chunksOfP k l = (l.take (k + 1)) :: chunksOfP k (l.drop (k + 1)) := by
  cases l with
  | nil => exact absurd rfl h
  | cons x xs => simp [chunksOfP]

/-- Concatenating the chunks in index order reproduces the sliced list. -/
theorem flatten_chunksOfP (k : Nat) (l : List α) :
    (chunksOfP k l).flatten = l := by
  induction l using chunksOfP.induct k with
  | case1 => simp [chunksOfP]
  | case2 x xs IH =>
      rw [chunksOfP, List.flatten_cons, IH, List.take_append_drop]

/-- Every chunk is at most one slice long. -/
theorem chunksOfP_mem_length (k : Nat) (l : List α) :
    ∀ c ∈ chunksOfP k l, c.length ≤ k + 1 := by
  induction l using chunksOfP.induct k with
  | case1 => intro c hc; simp [chunksOfP] at hc
  | case2 x xs IH =>
      intro c hc
      rw [chunksOfP] at hc
      rcases List.mem_cons.mp hc with h | h
      · subst h
        exact List.length_take_le (k + 1) (x :: xs)
      · exact IH c h

/-- Every chunk except the last is exactly one slice long. -/
theorem chunksOfP_dropLast_length (k : Nat) (l : List α) :
    ∀ c ∈ (chunksOfP k l).dropLast, c.length = k + 1 := by
  induction l using chunksOfP.induct k with
  | case1 => intro c hc; simp [chunksOfP] at hc
  | case2 x xs IH =>
      intro c hc
      rw [chunksOfP] at hc
      by_cases hrest : (x :: xs).drop (k + 1) = []
      · rw [hrest] at hc
        simp [chunksOfP] at hc
      · have hne : chunksOfP k ((x :: xs).drop (k + 1)) ≠ [] :=
          fun hh => hrest ((chunksOfP_eq_nil_iff _ _).mp hh)
        rw [List.dropLast_cons_of_ne_nil hne] at hc
        rcases List.mem_cons.mp hc with h | h
        · subst h
          have hlen : k + 1 < (x :: xs).length := by
            rcases Nat.lt_or_ge (k + 1) (x :: xs).length with hlt | hge
            · exact hlt
            · exact absurd (List.drop_eq_nil_of_le hge) hrest
          simp only [List.length_take]
          omega
        · exact IH c h

/-- The last chunk is non-empty and at most one slice long. -/
theorem chunksOfP_getLast_length (k : Nat) (l : List α) (hl : l ≠ []) :
    ∀ c, (chunksOfP k l).getLast? = some c → 1 ≤ c.length ∧ c.length ≤ k + 1 := by
  induction l using chunksOfP.induct k with
  | case1 => exact absurd rfl hl
  | case2 x xs IH =>
      intro c hc
      rw [chunksOfP] at hc
      by_cases hrest : (x :: xs).drop (k + 1) = []
      · rw [hrest] at hc
        simp only [chunksOfP, List.getLast?_singleton, Option.some.injEq] at hc
        subst hc
        simp [List.length_take]
      · have hne : chunksOfP k ((x :: xs).drop (k + 1)) ≠ [] :=
          fun hh => hrest ((chunksOfP_eq_nil_iff _ _).mp hh)
        rcases List.exists_cons_of_ne_nil hne with ⟨y, ys, hy⟩
        rw [hy, List.getLast?_cons_cons] at hc
        have := IH hrest c
        rw [hy] at this
        exact this hc

/-- Chunk count is the number of slices needed, i.e. `ceil (length / 800000)`,
for the generator's slice size. -/
theorem chunks_length (l : List α) :
    (chunks l).length = (l.length + 799999) / 800000 := by
  induction l using chunksOfP.induct 799999 with
  | case1 => simp [chunks, chunksOfP]
  | case2 x xs IH =>
      show (chunksOfP 799999 (x :: xs)).length = ((x :: xs).length + 799999) / 800000
      rw [chunksOfP]
      have hIH : (chunksOfP 799999 ((x :: xs).drop 800000)).length
          = (((x :: xs).drop 800000).length + 799999) / 800000 := IH
      simp only [List.length_cons, List.length_drop, List.length_cons] at hIH ⊢
      rw [hIH]
      omega

/-- A non-empty list no longer than one slice yields exactly one chunk. -/
theorem chunks_single (l : List α) (hl : l ≠ []) (hlen : l.length ≤ 800000) :
    chunks l = [l] := by
  rw [chunks, chunkSize, chunksOfP_cons _ _ hl]
  rw [List.take_of_length_le (by omega), List.drop_eq_nil_of_le (by omega)]
  simp [chunksOfP]

/-! ## Base64 validity of individual chunks -/

/-- Alphabet membership test. -/
def isB64Char (c : Char) : Bool := b64Alphabet.contains c

/-- A well-formed base64 string: length a multiple of four, a run of alphabet
characters followed only by at most two padding characters. -/
def validB64 (s : List Char) : Prop :=
  s.length % 4 = 0 ∧
  (s.drop (s.takeWhile isB64Char).length).all (fun c => c = b64pad) = true ∧
  s.length - (s.takeWhile isB64Char).length ≤ 2

instance (s : List Char) : Decidable (validB64 s) := by
  unfold validB64
  infer_instance

theorem isB64Char_b64char : ∀ n, n < 64 → isB64Char (b64char n) = true := by decide

theorem isB64Char_pad : isB64Char b64pad = false := by decide

/-- The encoded text splits into an alphabet body followed by at most two
padding characters. -/
theorem b64encode_structure (l : List Nat) (h : ∀ x ∈ l, x < 256) :
    ∃ body pads, b64encode l = body ++ pads ∧ body.all isB64Char = true ∧
      pads.all (fun c => c = b64pad) = true ∧ pads.length ≤ 2 := by
  induction l using b64encode.induct with
  | case1 => exact ⟨[], [], rfl, rfl, rfl, by simp⟩
  | case2 a =>
      have ha : a < 256 := h a (by simp)
      refine ⟨[b64char (a / 4), b64char (a % 4 * 16)], [b64pad, b64pad], rfl, ?_, ?_, by simp⟩
      · simp [isB64Char_b64char (a / 4) (by omega), isB64Char_b64char (a % 4 * 16) (by omega)]
      · simp
  | case3 a b =>
      have ha : a < 256 := h a (by simp)
      have hb : b < 256 := h b (by simp)
      refine ⟨[b64char (a / 4), b64char (a % 4 * 16 + b / 16), b64char (b % 16 * 4)],
        [b64pad], rfl, ?_, ?_, by simp⟩
      · simp [isB64Char_b64char (a / 4) (by omega),
          isB64Char_b64char (a % 4 * 16 + b / 16) (by omega),
          isB64Char_b64char (b % 16 * 4) (by omega)]
      · simp
  | case4 a b c rest IH =>
      have ha : a < 256 := h a (by simp)
      have hb : b < 256 := h b (by simp)
      have hc : c < 256 := h c (by simp)
      have hrest : ∀ x ∈ rest, x < 256 := by
        intro x hx; exact h x (by simp [hx])
      rcases IH hrest with ⟨body, pads, heq, hball, hpall, hplen⟩
      refine ⟨b64char (a / 4) :: b64char (a % 4 * 16 + b / 16) ::
        b64char (b % 16 * 4 + c / 64) :: b64char (c % 64) :: body, pads, ?_, ?_, hpall, hplen⟩
      · simp [b64encode, heq]
      · simp only [List.all_cons, Bool.and_eq_true]
        refine ⟨?_, ?_, ?_, ?_, hball⟩
        · exact isB64Char_b64char (a / 4) (by omega)
        · exact isB64Char_b64char (a % 4 * 16 + b / 16) (by omega)
        · exact isB64Char_b64char (b % 16 * 4 + c / 64) (by omega)
        · exact isB64Char_b64char (c % 64) (by omega)

theorem takeWhile_append_all (p : α → Bool) (l r : List α) (hl : l.all p = true) :
    (l ++ r).takeWhile p = l ++ r.takeWhile p := by
  induction l with
  | nil => simp
  | cons x xs IH =>
      simp only [List.all_cons, Bool.and_eq_true] at hl
      simp [List.takeWhile_cons, hl.1, IH hl.2]

theorem takeWhile_pads (pads : List Char) (hp : pads.all (fun c => c = b64pad) = true) :
    pads.takeWhile isB64Char = [] := by
  cases pads with
  | nil => rfl
  | cons c cs =>
      simp only [List.all_cons, Bool.and_eq_true, decide_eq_true_eq] at hp
      simp [List.takeWhile_cons, hp.1, isB64Char_pad]

/-- A list of the body-followed-by-padding shape with length divisible by four
is well-formed base64. -/
theorem validB64_of_structure (body pads : List Char) (hb : body.all isB64Char = true)
    (hp : pads.all (fun c => c = b64pad) = true) (h2 : pads.length ≤ 2)
    (hmod : (body ++ pads).length % 4 = 0) : validB64 (body ++ pads) := by
  have htw : (body ++ pads).takeWhile isB64Char = body := by
    rw [takeWhile_append_all _ _ _ hb, takeWhile_pads pads hp, List.append_nil]
  refine ⟨hmod, ?_, ?_⟩
  · rw [htw, List.drop_left]
    exact hp
  · rw [htw, List.length_append]
    omega

theorem chunks_cons (l : List α) (h : l ≠ []) :
    chunks l = (l.take 800000) :: chunks (l.drop 800000) := by
  rw [chunks, chunksOfP_cons _ _ h]
  norm_num [chunkSize, chunks]

/-- Every chunk cut from an alphabet-body-plus-padding string whose length is
a multiple of four is itself well-formed base64: the slice size 800000 is a
multiple of four, so slice boundaries respect base64 blocks and the padding
stays within the final chunk. -/
theorem chunks_all_validB64 (n : Nat) :
    ∀ body pads : List Char, body.length ≤ n →
      body.all isB64Char = true → pads.all (fun c => c = b64pad) = true →
      pads.length ≤ 2 → (body ++ pads).length % 4 = 0 →
      ∀ c ∈ chunks (body ++ pads), validB64 c := by
  induction n using Nat.strong_induction_on with
  | _ n IH =>
    intro body pads hbn hball hpall hplen hmod c hc
    by_cases hnil : body ++ pads = []
    · rw [hnil] at hc
      simp [chunks, chunksOfP] at hc
    · by_cases hsmall : (body ++ pads).length ≤ 800000
      · rw [chunks_single _ hnil hsmall] at hc
        rcases List.mem_singleton.mp hc with rfl
        exact validB64_of_structure body pads hball hpall hplen hmod
      · have hlong : 800000 < (body ++ pads).length := by omega
        have hlens : (body ++ pads).length = body.length + pads.length :=
          List.length_append body pads
        have hblen : 800000 ≤ body.length := by omega
        rw [chunks_cons _ hnil] at hc
        rcases List.mem_cons.mp hc with rfl | hmem
        · rw [List.take_append_of_le_length hblen]
          have hall : (body.take 800000).all isB64Char = true := by
            rw [List.all_eq_true] at hball ⊢
            intro x hx
            exact hball x (List.take_subset _ _ hx)
          have := validB64_of_structure (body.take 800000) [] hall rfl (by simp) (by
            simp only [List.append_nil, List.length_take]
            omega)
          simpa using this
        · rw [List.drop_append_of_le_length hblen] at hmem
          have hall : (body.drop 800000).all isB64Char = true := by
            rw [List.all_eq_true] at hball ⊢
            intro x hx
            exact hball x (List.drop_subset _ _ hx)
          refine IH (body.length - 800000) (by omega) (body.drop 800000) pads ?_ hall hpall hplen ?_ c hmem
          · simp [List.length_drop]
          · simp only [List.length_append, List.length_drop]
            omega

theorem chunks_mem_length (l : List α) : ∀ c ∈ chunks l, c.length ≤ 800000 := by
  intro c hc
  rw [chunks] at hc
  have := chunksOfP_mem_length (chunkSize - 1) l c hc
  norm_num [chunkSize] at this
  exact this

theorem chunks_dropLast_len (l : List α) :
    ∀ c ∈ (chunks l).dropLast, c.length = 800000 := by
  intro c hc
  rw [chunks] at hc
  have := chunksOfP_dropLast_length (chunkSize - 1) l c hc
  norm_num [chunkSize] at this
  exact this

theorem chunks_getLast_len (l : List α) (hl : l ≠ []) :
    ∀ c, (chunks l).getLast? = some c → 1 ≤ c.length ∧ c.length ≤ 800000 := by
  intro c hc
  rw [chunks] at hc
  have := chunksOfP_getLast_length (chunkSize - 1) l hl c hc
  norm_num [chunkSize] at this
  exact this

/-! ## The emitted chunk module file

`generateJavaScriptFile` (src/scripts/lwcWrapperGenerator.js lines 366-372)
writes, for each chunk, a file whose content is the template

  // React Bundle Chunk INDEX+1/TOTAL
  export const chunkINDEX = (quote) CHUNK (quote);
-/

/-- Decimal digit character. -/
def digitChar (d : Nat) : Char := Char.ofNat (48 + d)

/-- Decimal representation of a natural number, as JavaScript template
interpolation renders it. -/
def natDigits (n : Nat) : List Char :=
  if n < 10 then [digitChar n]
  else natDigits (n / 10) ++ [digitChar (n % 10)]
termination_by n
decreasing_by omega

/-- The single-quote character. -/
def squote : Char := Char.ofNat 39

/-- The content of the chunk module file for chunk `index` out of `total`. -/
def chunkFileContent (index total : Nat) (chunk : List Char) : List Char :=
  "// React Bundle Chunk ".toList ++ natDigits (index + 1) ++ "/".toList ++
  natDigits total ++ "\nexport const chunk".toList ++ natDigits index ++
  " = ".toList ++ [squote] ++ chunk ++ [squote] ++ ";\n".toList

theorem natDigits_length_le : ∀ (k : Nat), 1 ≤ k → ∀ n, n < 10 ^ k →
    (natDigits n).length ≤ k := by
  intro k
  induction k with
  | zero => omega
  | succ k IH =>
      intro _ n hn
      by_cases h : n < 10
      · rw [natDigits, if_pos h]
        simp
      · rw [natDigits, if_neg h]
        have hk : 1 ≤ k := by
          rcases Nat.eq_zero_or_pos k with rfl | hpos
          · norm_num at hn
            omega
          · exact hpos
        have hdiv : n / 10 < 10 ^ k := by
          apply Nat.div_lt_of_lt_mul
          rw [pow_succ] at hn
          omega
        have := IH hk (n / 10) hdiv
        simp only [List.length_append, List.length_cons, List.length_nil]
        omega

/-- Every chunk file the generator can realistically emit (chunk counts up to
10^9) stays strictly below the host's 1MB per-file ceiling. -/
theorem chunkFileContent_length (index total : Nat) (chunk : List Char)
    (hi : index < total) (ht : total ≤ 1000000000) (hc : chunk.length ≤ 800000) :
    (chunkFileContent index total chunk).length < 1000000 := by
  have hpow : (10 : Nat) ^ 10 = 10000000000 := by norm_num
  have d1 : (natDigits (index + 1)).length ≤ 10 :=
    natDigits_length_le 10 (by norm_num) _ (by omega)
  have d2 : (natDigits total).length ≤ 10 :=
    natDigits_length_le 10 (by norm_num) _ (by omega)
  have d3 : (natDigits index).length ≤ 10 :=
    natDigits_length_le 10 (by norm_num) _ (by omega)
  have f1 : ("// React Bundle Chunk ".toList).length = 22 := by decide
  have f2 : ("/".toList).length = 1 := by decide
  have f3 : ("\nexport const chunk".toList).length = 19 := by decide
  have f4 : (" = ".toList).length = 3 := by decide
  have f5 : (";\n".toList).length = 2 := by decide
  simp only [chunkFileContent, List.length_append, List.length_cons, List.length_nil,
    f1, f2, f3, f4, f5]
  omega

/-- Modelled from the spec's words, for refinement comparison with the source:
the reading of the chunk-set invariant under which "the size bound is applied
to the pre-encoding slice size" — slice the compiled source bytes into
segments of at most 800000 bytes first, and then base64-encode each slice. -/
def preEncodingChunks (src : List Nat) : List (List Char) :=
  (chunks src).map b64encode

/-! ## Claim C1: chunked encoding round-trip -/

/-- C1: for every non-empty compiled bundle byte sequence, base64-encoding it,
slicing the encoded text into fixed-size segments, concatenating all chunk
texts in index order and decoding once at the end reproduces the original
bytes exactly, the resulting chunk count being at least one. -/
theorem chunked_encoding_roundtrip (l : List Nat) (hl : l ≠ []) (h : ∀ x ∈ l, x < 256) :
    1 ≤ (chunks (b64encode l)).length ∧
    b64decode ((chunks (b64encode l)).flatten) = l := by
  constructor
  · have hlen : 1 ≤ l.length := List.length_pos.mpr hl
    rw [chunks_length, b64encode_length]
    omega
  · rw [chunks, flatten_chunksOfP]
    exact b64decode_b64encode l h

theorem chunked_encoding_roundtrip_witness :
    ([104, 105] : List Nat) ≠ [] ∧ (∀ x ∈ ([104, 105] : List Nat), x < 256) ∧
    (1 ≤ (chunks (b64encode [104, 105])).length ∧
      b64decode ((chunks (b64encode [104, 105])).flatten) = [104, 105]) :=
  ⟨by decide, by decide, chunked_encoding_roundtrip [104, 105] (by decide) (by decide)⟩

/-! ## Claim C4: the zero-length bundle is not rejected by the code -/

/-- C4: evaluating the chunk encoder at the zero-length compiled bundle: the
slicing loop body never runs, so the code produces the empty chunk set — no
error condition is raised anywhere on this path (the generated main file then
contains an empty concatenation expression). -/
theorem zero_length_bundle_chunks :
    chunks (b64encode []) = [] ∧ (chunks (b64encode [])).length = 0 := by
  constructor
  · simp [b64encode, chunks, chunksOfP]
  · simp [b64encode, chunks, chunksOfP]

/-! ## Claim C3: chunk sizing -/

/-- C3 (amended): the chunk count equals `ceil (encodedLength / 800000)`; every
chunk's encoded text is at most 800000 characters, and hence every emitted
chunk module file is strictly below the host's 1MB per-file ceiling for every
realistic chunk count (up to 10^9 chunks); a non-empty bundle whose encoded
text fits in one slice produces exactly one chunk, the whole encoded text; the
size bound is applied to the encoded (post-encoding) slice, with the headroom
between 800000 and the 1MB ceiling absorbing the file-template overhead. -/
theorem chunk_sizing (l : List Nat) (hl : l ≠ []) :
    (chunks (b64encode l)).length = ((b64encode l).length + 799999) / 800000 ∧
    (∀ c ∈ chunks (b64encode l), c.length ≤ 800000) ∧
    ((b64encode l).length ≤ 800000 → chunks (b64encode l) = [b64encode l]) ∧
    (∀ i c, (chunks (b64encode l))[i]? = some c →
      (chunks (b64encode l)).length ≤ 1000000000 →
      (chunkFileContent i (chunks (b64encode l)).length c).length < 1000000) := by
  have hene : b64encode l ≠ [] := by
    have hlen : 1 ≤ l.length := List.length_pos.mpr hl
    have := b64encode_length l
    intro hcon
    rw [hcon] at this
    simp only [List.length_nil] at this
    omega
  refine ⟨chunks_length _, chunks_mem_length _, fun hle => chunks_single _ hene hle, ?_⟩
  intro i c hget htot
  have hi : i < (chunks (b64encode l)).length := by
    rcases List.getElem?_eq_some_iff.mp hget with ⟨hilt, _⟩
    exact hilt
  exact chunkFileContent_length i _ c hi htot (chunks_mem_length _ c (List.getElem?_mem hget))

theorem chunk_sizing_witness :
    ([1, 2, 3] : List Nat) ≠ [] ∧
    ((chunks (b64encode [1, 2, 3])).length = ((b64encode [1, 2, 3]).length + 799999) / 800000 ∧
    (∀ c ∈ chunks (b64encode [1, 2, 3]), c.length ≤ 800000) ∧
    ((b64encode [1, 2, 3]).length ≤ 800000 → chunks (b64encode [1, 2, 3]) = [b64encode [1, 2, 3]]) ∧
    (∀ i c, (chunks (b64encode [1, 2, 3]))[i]? = some c →
      (chunks (b64encode [1, 2, 3])).length ≤ 1000000000 →
      (chunkFileContent i (chunks (b64encode [1, 2, 3])).length c).length < 1000000)) :=
  ⟨by decide, chunk_sizing [1, 2, 3] (by decide)⟩

/-- C3 counterexample: at a 600001-byte bundle, applying the 800000 bound to
pre-encoding slices (the claim's words) yields a single chunk whose encoded
text is 800004 characters — exceeding the claimed 800000-character chunk
bound — whereas the code, which slices the encoded text, yields two chunks of
lengths 800000 and 4. -/
theorem chunk_sizing_counterexample :
    (∃ c ∈ preEncodingChunks (List.replicate 600001 0), 800000 < c.length) ∧
    (chunks (b64encode (List.replicate 600001 0))).map List.length = [800000, 4] := by
  have hlenrep : (List.replicate 600001 (0 : Nat)).length = 600001 := List.length_replicate _ _
  have hne : List.replicate 600001 (0 : Nat) ≠ [] := by
    intro hcon
    rw [hcon] at hlenrep
    exact absurd hlenrep (by decide)
  have hlenE : (b64encode (List.replicate 600001 (0 : Nat))).length = 800004 := by
    rw [b64encode_length, hlenrep]
  constructor
  · have hs : chunks (List.replicate 600001 (0 : Nat)) = [List.replicate 600001 0] :=
      chunks_single _ hne (by rw [hlenrep]; decide)
    refine ⟨b64encode (List.replicate 600001 0), ?_, ?_⟩
    · rw [preEncodingChunks, hs]
      exact List.mem_singleton.mpr rfl
    · rw [hlenE]
      decide
  · have hEne : b64encode (List.replicate 600001 (0 : Nat)) ≠ [] := by
      intro hcon
      rw [hcon] at hlenE
      exact absurd hlenE (by decide)
    have hdropne : (b64encode (List.replicate 600001 (0 : Nat))).drop 800000 ≠ [] := by
      intro hcon
      have hlc := congrArg List.length hcon
      rw [List.length_drop, hlenE] at hlc
      exact absurd hlc (by decide)
    have h3 : ((b64encode (List.replicate 600001 (0 : Nat))).drop 800000).drop 800000 = [] := by
      apply List.drop_eq_nil_of_le
      rw [List.length_drop, hlenE]
      decide
    have h1 : ((b64encode (List.replicate 600001 (0 : Nat))).take 800000).length = 800000 := by
      rw [List.length_take, hlenE]
      omega
    have h2 : (((b64encode (List.replicate 600001 (0 : Nat))).drop 800000).take 800000).length
        = 4 := by
      rw [List.length_take, List.length_drop, hlenE]
      omega
    have hnil : chunks ([] : List Char) = [] := (chunksOfP_eq_nil_iff _ _).mpr rfl
    rw [chunks_cons _ hEne, chunks_cons _ hdropne, h3, hnil, List.map_cons, List.map_cons,
      List.map_nil, h1, h2]

/-! ## Claim C9: chunk shapes and per-chunk base64 validity -/

/-- C9: for a non-empty bundle, the chunk list is non-empty, every chunk except
the last is exactly 800000 characters, the last chunk has between 1 and 800000
characters, and — the slice size being a multiple of four — every chunk's text
is itself a well-formed base64 string. -/
theorem chunk_shape_and_validity (l : List Nat) (hl : l ≠ []) (h : ∀ x ∈ l, x < 256) :
    chunks (b64encode l) ≠ [] ∧
    (∀ c ∈ (chunks (b64encode l)).dropLast, c.length = 800000) ∧
    (∀ c, (chunks (b64encode l)).getLast? = some c → 1 ≤ c.length ∧ c.length ≤ 800000) ∧
    (∀ c ∈ chunks (b64encode l), validB64 c) := by
  have hene : b64encode l ≠ [] := by
    have hlen : 1 ≤ l.length := List.length_pos.mpr hl
    have hle := b64encode_length l
    intro hcon
    rw [hcon] at hle
    simp only [List.length_nil] at hle
    omega
  refine ⟨?_, chunks_dropLast_len _, chunks_getLast_len _ hene, ?_⟩
  · rw [chunks]
    exact fun hh => hene ((chunksOfP_eq_nil_iff _ _).mp hh)
  · rcases b64encode_structure l h with ⟨body, pads, heq, hball, hpall, hplen⟩
    have hmod : (body ++ pads).length % 4 = 0 := by
      rw [← heq, b64encode_length]
      omega
    intro c hc
    rw [heq] at hc
    exact chunks_all_validB64 body.length body pads (le_refl _) hball hpall hplen hmod c hc

theorem chunk_shape_and_validity_witness :
    ([104] : List Nat) ≠ [] ∧ (∀ x ∈ ([104] : List Nat), x < 256) ∧
    (chunks (b64encode [104]) ≠ [] ∧
    (∀ c ∈ (chunks (b64encode [104])).dropLast, c.length = 800000) ∧
    (∀ c, (chunks (b64encode [104])).getLast? = some c → 1 ≤ c.length ∧ c.length ≤ 800000) ∧
    (∀ c ∈ chunks (b64encode [104]), validB64 c)) :=
  ⟨by decide, by decide, chunk_shape_and_validity [104] (by decide) (by decide)⟩

/-! ## Runtime bridge (`scripts/templates/lwcWrapper.js`)

`renderedCallback` is modelled as a state-transition function. The points at
which the real code can fail (missing injected libraries, exceptions thrown
while decoding, executing, looking up the published root factory, finding the
container, attaching the shadow root, creating the React root, or rendering)
are captured by Boolean flags in an environment record; the `try`/`catch`
around the mount is modelled by the transition being a total function that
records the caught error as an observable event instead of propagating. -/

/-- The `window.process` object installed at lines 28-39 of the template. -/
structure ProcessEnvObj where
  NODE_ENV : String
  REACT_APP_SF_ACCESS_TOKEN : Option String
  REACT_APP_SF_INSTANCE_URL : Option String
  REACT_APP_SF_USERNAME : String
  REACT_APP_SF_ORG_ALIAS : String
  REACT_APP_USE_MOCK_DATA : String
  deriving DecidableEq

/-- The value assigned to `window.process` when it is absent. -/
def defaultProcessEnv : ProcessEnvObj :=
  { NODE_ENV := "production"
    REACT_APP_SF_ACCESS_TOKEN := none
    REACT_APP_SF_INSTANCE_URL := none
    REACT_APP_SF_USERNAME := ""
    REACT_APP_SF_ORG_ALIAS := ""
    REACT_APP_USE_MOCK_DATA := "true" }

/-- The slice of the hosting page's global `window` state the bridge touches. -/
structure Window where
  process : Option ProcessEnvObj
  reactAppComponent : Bool
  deriving DecidableEq

/-- Per-instance component state: the one-shot `_hasRendered` guard and the
`_reactRoot` handle recorded for teardown. -/
structure LwcState where
  hasRendered : Bool
  reactRoot : Bool
  window : Window
  deriving DecidableEq

/-- Failure points of a mount attempt, in the order the template reaches
them. -/
inductive MountError where
  | decodeFailed
  | execFailed
  | appComponentNotFound
  | containerNotFound
  | attachFailed
  | createRootFailed
  | renderFailed
  deriving DecidableEq

/-- Observable events of one `renderedCallback` invocation. -/
inductive REvent where
  | decoded
  | executed
  | mounted
  | noop
  | libsMissing
  | errorCaught (e : MountError)
  deriving DecidableEq

/-- Environment of one render-lifecycle invocation: which injected libraries
are present and which steps would throw. -/
structure Env where
  reactAvailable : Bool
  reactDOMAvailable : Bool
  decodeOk : Bool
  execOk : Bool
  appComponentPublished : Bool
  containerPresent : Bool
  attachOk : Bool
  createRootOk : Bool
  renderOk : Bool
  deriving DecidableEq

/-- The `if (!window.process) window.process = ...` step (template lines
28-39): install the default process-environment object only when absent. -/
def ensureProcess (w : Window) : Window :=
  if w.process.isNone then { w with process := some defaultProcessEnv } else w

theorem ensureProcess_reactAppComponent (w : Window) :
    (ensureProcess w).reactAppComponent = w.reactAppComponent := by
  unfold ensureProcess
  split <;> rfl

theorem ensureProcess_process (w : Window) :
    (ensureProcess w).process =
      (if w.process.isNone then some defaultProcessEnv else w.process) := by
  unfold ensureProcess
  split <;> rfl

/-- One invocation of `renderedCallback` (template lines 11-106). -/
def renderedCallback (env : Env) (s : LwcState) : LwcState × List REvent :=
  if s.hasRendered then
    (s, [REvent.noop])
  else if env.reactAvailable && env.reactDOMAvailable then
    let w : Window := ensureProcess s.window
    if !env.decodeOk then
      ({ s with window := w }, [REvent.errorCaught MountError.decodeFailed])
    else if !env.execOk then
      ({ s with window := w }, [REvent.decoded, REvent.errorCaught MountError.execFailed])
    else
      let w2 : Window := { w with reactAppComponent := env.appComponentPublished || w.reactAppComponent }
      if !w2.reactAppComponent then
        ({ s with window := w2 },
          [REvent.decoded, REvent.executed, REvent.errorCaught MountError.appComponentNotFound])
      else if !env.containerPresent then
        ({ s with window := w2 },
          [REvent.decoded, REvent.executed, REvent.errorCaught MountError.containerNotFound])
      else if !env.attachOk then
        ({ s with window := w2 },
          [REvent.decoded, REvent.executed, REvent.errorCaught MountError.attachFailed])
      else if !env.createRootOk then
        ({ s with window := w2 },
          [REvent.decoded, REvent.executed, REvent.errorCaught MountError.createRootFailed])
      else if !env.renderOk then
        ({ s with window := w2, reactRoot := true },
          [REvent.decoded, REvent.executed, REvent.errorCaught MountError.renderFailed])
      else
        ({ hasRendered := true, reactRoot := true, window := w2 },
          [REvent.decoded, REvent.executed, REvent.mounted])
  else
    (s, [REvent.libsMissing])

/-- A freshly-instantiated component over a given hosting-page window. -/
def initState (w : Window) : LwcState :=
  { hasRendered := false, reactRoot := false, window := w }

/-- Iterate the render lifecycle hook, concatenating the observable events. -/
def runN (env : Env) (s : LwcState) : Nat → LwcState × List REvent
  | 0 => (s, [])
  | n + 1 =>
      let r := renderedCallback env s
      let r2 := runN env r.1 n
      (r2.1, r.2 ++ r2.2)

/-- All conditions required for a mount attempt to complete. -/
def mountSucceeds (env : Env) : Prop :=
  env.reactAvailable = true ∧ env.reactDOMAvailable = true ∧ env.decodeOk = true ∧
  env.execOk = true ∧ env.appComponentPublished = true ∧ env.containerPresent = true ∧
  env.attachOk = true ∧ env.createRootOk = true ∧ env.renderOk = true

instance (env : Env) : Decidable (mountSucceeds env) := by
  unfold mountSucceeds
  infer_instance

/-- Under an environment in which every step succeeds, a not-yet-rendered
instance mounts in one invocation. -/
theorem renderedCallback_success (env : Env) (s : LwcState) (hs : s.hasRendered = false)
    (henv : mountSucceeds env) :
    (renderedCallback env s).2 = [REvent.decoded, REvent.executed, REvent.mounted] ∧
    (renderedCallback env s).1.hasRendered = true := by
  rcases henv with ⟨h1, h2, h3, h4, h5, h6, h7, h8, h9⟩
  simp [renderedCallback, hs, h1, h2, h3, h4, h5, h6, h7, h8, h9]

/-- Once the guard is set, every invocation is a pure no-op. -/
theorem runN_rendered (env : Env) (s : LwcState) (hs : s.hasRendered = true) :
    ∀ n, runN env s n = (s, List.replicate n REvent.noop) := by
  intro n
  induction n with
  | zero => simp [runN]
  | succ n IH =>
      simp [runN, renderedCallback, hs, IH, List.replicate_succ]

/-! ## Claim C2: idempotent mount -/

/-- C2: invoking the render lifecycle hook `n ≥ 1` times on a fresh instance,
in an environment where the mount succeeds, produces exactly one
decode/execute/mount sequence followed by `n - 1` no-ops, and leaves the
one-shot guard set. -/
theorem render_idempotent (env : Env) (w : Window) (n : Nat) (hn : 1 ≤ n)
    (henv : mountSucceeds env) :
    (runN env (initState w) n).2 =
      [REvent.decoded, REvent.executed, REvent.mounted] ++
        List.replicate (n - 1) REvent.noop ∧
    (runN env (initState w) n).1.hasRendered = true := by
  cases n with
  | zero => omega
  | succ m =>
      have h0 : (initState w).hasRendered = false := rfl
      have hsucc := renderedCallback_success env (initState w) h0 henv
      have hstep : runN env (initState w) (m + 1) =
          ((runN env (renderedCallback env (initState w)).1 m).1,
            (renderedCallback env (initState w)).2 ++
              (runN env (renderedCallback env (initState w)).1 m).2) := rfl
      rw [hstep, hsucc.1, runN_rendered env _ hsucc.2 m]
      constructor
      · simp
      · exact hsucc.2

theorem render_idempotent_witness :
    1 ≤ 3 ∧
    mountSucceeds ⟨true, true, true, true, true, true, true, true, true⟩ ∧
    ((runN ⟨true, true, true, true, true, true, true, true, true⟩
        (initState ⟨none, false⟩) 3).2 =
      [REvent.decoded, REvent.executed, REvent.mounted] ++
        List.replicate (3 - 1) REvent.noop ∧
    (runN ⟨true, true, true, true, true, true, true, true, true⟩
        (initState ⟨none, false⟩) 3).1.hasRendered = true) :=
  ⟨by decide, by decide,
    render_idempotent ⟨true, true, true, true, true, true, true, true, true⟩
      ⟨none, false⟩ 3 (by decide) (by decide)⟩

/-! ## Claim C10: the bridge installs `window.process` only when absent -/

theorem renderedCallback_process (env : Env) (s : LwcState) (hs : s.hasRendered = false)
    (h1 : env.reactAvailable = true) (h2 : env.reactDOMAvailable = true) :
    (renderedCallback env s).1.window.process =
      (if s.window.process.isNone then some defaultProcessEnv else s.window.process) := by
  cases h3 : env.decodeOk <;> cases h4 : env.execOk <;> cases h5 : env.appComponentPublished <;>
    cases h6 : env.containerPresent <;> cases h7 : env.attachOk <;>
    cases h8 : env.createRootOk <;> cases h9 : env.renderOk <;>
    cases hw : s.window.reactAppComponent <;>
    simp [renderedCallback, hs, h1, h2, h3, h4, h5, h6, h7, h8, h9, hw,
      ensureProcess_reactAppComponent, ensureProcess_process]

/-- C10: on first render with the injected libraries present, the bridge
installs the default process-environment object only when no `window.process`
exists; an already-present `window.process` is left exactly as it was. -/
theorem process_env_only_when_absent (env : Env) (s : LwcState) (hs : s.hasRendered = false)
    (h1 : env.reactAvailable = true) (h2 : env.reactDOMAvailable = true) :
    (∀ p, s.window.process = some p → (renderedCallback env s).1.window.process = some p) ∧
    (s.window.process = none → (renderedCallback env s).1.window.process = some defaultProcessEnv) := by
  have key := renderedCallback_process env s hs h1 h2
  constructor
  · intro p hp
    rw [key, hp]
    simp
  · intro hp
    rw [key, hp]
    simp

theorem process_env_only_when_absent_witness :
    ((initState ⟨some defaultProcessEnv, false⟩).hasRendered = false) ∧
    ((∀ p, (initState ⟨some defaultProcessEnv, false⟩).window.process = some p →
        (renderedCallback ⟨true, true, true, true, true, true, true, true, true⟩
          (initState ⟨some defaultProcessEnv, false⟩)).1.window.process = some p) ∧
      ((initState ⟨some defaultProcessEnv, false⟩).window.process = none →
        (renderedCallback ⟨true, true, true, true, true, true, true, true, true⟩
          (initState ⟨some defaultProcessEnv, false⟩)).1.window.process =
            some defaultProcessEnv)) :=
  ⟨rfl, process_env_only_when_absent ⟨true, true, true, true, true, true, true, true, true⟩
    (initState ⟨some defaultProcessEnv, false⟩) rfl rfl rfl⟩

/-! ## Claim C5: mount failures are contained and leave the guard unset -/

/-- C5: whenever a render-lifecycle invocation on a not-yet-rendered instance
does not complete the mount — the injected libraries are absent, or any step
of decode/execute/root-factory-lookup/container-lookup/shadow-attach/render
fails — the failure is caught (the transition is total and reports the error
as a libs-missing or caught-error event rather than propagating), the
has-rendered guard remains unset, and a later invocation under a fully
working environment performs the complete decode/execute/mount sequence. -/
theorem mount_failure_contained (env : Env) (s : LwcState) (hs : s.hasRendered = false)
    (hfail : REvent.mounted ∉ (renderedCallback env s).2) :
    (renderedCallback env s).1.hasRendered = false ∧
    (REvent.libsMissing ∈ (renderedCallback env s).2 ∨
      ∃ e, REvent.errorCaught e ∈ (renderedCallback env s).2) ∧
    (∀ env2, mountSucceeds env2 →
      (renderedCallback env2 (renderedCallback env s).1).2 =
        [REvent.decoded, REvent.executed, REvent.mounted]) := by
  have hmain : (renderedCallback env s).1.hasRendered = false ∧
      (REvent.libsMissing ∈ (renderedCallback env s).2 ∨
        ∃ e, REvent.errorCaught e ∈ (renderedCallback env s).2) := by
    cases h1 : env.reactAvailable with
    | false => simp [renderedCallback, hs, h1]
    | true =>
    cases h2 : env.reactDOMAvailable with
    | false => simp [renderedCallback, hs, h1, h2]
    | true =>
    cases h3 : env.decodeOk with
    | false =>
        refine ⟨?_, Or.inr ⟨MountError.decodeFailed, ?_⟩⟩ <;>
          simp [renderedCallback, hs, h1, h2, h3]
    | true =>
    cases h4 : env.execOk with
    | false =>
        refine ⟨?_, Or.inr ⟨MountError.execFailed, ?_⟩⟩ <;>
          simp [renderedCallback, hs, h1, h2, h3, h4]
    | true =>
    cases h5 : env.appComponentPublished || s.window.reactAppComponent with
    | false =>
        refine ⟨?_, Or.inr ⟨MountError.appComponentNotFound, ?_⟩⟩ <;>
          simp [renderedCallback, hs, h1, h2, h3, h4, ensureProcess_reactAppComponent,
            Bool.or_eq_false_iff.mp h5]
    | true =>
    cases h6 : env.containerPresent with
    | false =>
        refine ⟨?_, Or.inr ⟨MountError.containerNotFound, ?_⟩⟩ <;>
          simp [renderedCallback, hs, h1, h2, h3, h4, h6,
            ensureProcess_reactAppComponent, h5]
    | true =>
    cases h7 : env.attachOk with
    | false =>
        refine ⟨?_, Or.inr ⟨MountError.attachFailed, ?_⟩⟩ <;>
          simp [renderedCallback, hs, h1, h2, h3, h4, h6, h7,
            ensureProcess_reactAppComponent, h5]
    | true =>
    cases h8 : env.createRootOk with
    | false =>
        refine ⟨?_, Or.inr ⟨MountError.createRootFailed, ?_⟩⟩ <;>
          simp [renderedCallback, hs, h1, h2, h3, h4, h6, h7, h8,
            ensureProcess_reactAppComponent, h5]
    | true =>
    cases h9 : env.renderOk with
    | false =>
        refine ⟨?_, Or.inr ⟨MountError.renderFailed, ?_⟩⟩ <;>
          simp [renderedCallback, hs, h1, h2, h3, h4, h6, h7, h8, h9,
            ensureProcess_reactAppComponent, h5]
    | true =>
        exfalso
        apply hfail
        simp [renderedCallback, hs, h1, h2, h3, h4, h6, h7, h8, h9,
          ensureProcess_reactAppComponent, h5]
  refine ⟨hmain.1, hmain.2, ?_⟩
  intro env2 henv2
  exact (renderedCallback_success env2 _ hmain.1 henv2).1

theorem mount_failure_contained_witness :
    ((initState ⟨none, false⟩).hasRendered = false) ∧
    (REvent.mounted ∉
      (renderedCallback ⟨true, true, true, false, true, true, true, true, true⟩
        (initState ⟨none, false⟩)).2) ∧
    ((renderedCallback ⟨true, true, true, false, true, true, true, true, true⟩
        (initState ⟨none, false⟩)).1.hasRendered = false ∧
    (REvent.libsMissing ∈
        (renderedCallback ⟨true, true, true, false, true, true, true, true, true⟩
          (initState ⟨none, false⟩)).2 ∨
      ∃ e, REvent.errorCaught e ∈
        (renderedCallback ⟨true, true, true, false, true, true, true, true, true⟩
          (initState ⟨none, false⟩)).2) ∧
    (∀ env2, mountSucceeds env2 →
      (renderedCallback env2
        (renderedCallback ⟨true, true, true, false, true, true, true, true, true⟩
          (initState ⟨none, false⟩)).1).2 =
        [REvent.decoded, REvent.executed, REvent.mounted])) :=
  ⟨rfl, by decide,
    mount_failure_contained ⟨true, true, true, false, true, true, true, true, true⟩
      (initState ⟨none, false⟩) rfl (by decide)⟩

/-! ## Style collector (`findCSSFiles` / `compileStyles` fallback)

`findCSSFiles` (src/scripts/lwcWrapperGenerator.js lines 162-178) walks a
directory recursively in entry order, collecting paths of files whose names
end in `.css`; the fallback read in `compileStyles` (lines 262-279) reads each
discovered file that still exists and appends its content plus a newline. The
file system at discovery time is modelled as a tree of named entries; the file
system at read time as an association list from path to content (a discovered
file that has disappeared is simply absent from it). -/

inductive FSTree where
  | file (name : String)
  | dir (name : String) (entries : List FSTree)

/-- The `name.endsWith(".css")` test. -/
def strEndsWith (s suffix : String) : Bool := suffix.toList.isSuffixOf s.toList

/-- `findCSSFiles`, on the entry list of the directory at path `p`: files in
entry order, recursing into subdirectories in place. -/
def findCSSDir (p : String) : List FSTree → List String
  | [] => []
  | FSTree.file name :: rest =>
      (if strEndsWith name ".css" then [p ++ "/" ++ name] else []) ++ findCSSDir p rest
  | FSTree.dir name entries :: rest =>
      findCSSDir (p ++ "/" ++ name) entries ++ findCSSDir p rest

/-- `fs.existsSync` followed by `fs.readFileSync` against the read-time
snapshot. -/
def readSnapshot (snap : List (String × String)) (p : String) : Option String :=
  (snap.find? (fun e => e.1 == p)).map (fun e => e.2)

/-- The fallback accumulation loop (lines 274-278):
`if (fs.existsSync(cssFile)) cssContent += fs.readFileSync(cssFile) + newline`. -/
def fallbackConcat (snap : List (String × String)) (files : List String) : String :=
  files.foldl
    (fun acc f =>
      match readSnapshot snap f with
      | some content => acc ++ content ++ "\n"
      | none => acc) ""

/-- The read phase of `compileStyles` (lines 260-279): use the extracted
stylesheet if the extraction pipeline materialized one, otherwise fall back to
concatenating the discovered files directly. -/
def compileStylesText (extracted : Option String) (snap : List (String × String))
    (discovered : List String) : String :=
  match extracted with
  | some css => css
  | none => fallbackConcat snap discovered

/-- Modelled from the spec's words, for refinement comparison with the source:
"the consolidated stylesheet text equals the direct concatenation of the
contents of all discovered stylesheet files ... separated by a single
newline". -/
def specSeparatedConcat (snap : List (String × String)) (files : List String) : String :=
  String.intercalate "\n" (files.filterMap (readSnapshot snap))

/-- Plain concatenation of a list of strings. -/
def concatAll : List String → String
  | [] => ""
  | s :: rest => s ++ concatAll rest

theorem fallbackConcat_go (snap : List (String × String)) (files : List String) :
    ∀ acc : String,
      files.foldl
        (fun acc f =>
          match readSnapshot snap f with
          | some content => acc ++ content ++ "\n"
          | none => acc) acc =
      acc ++ concatAll ((files.filterMap (readSnapshot snap)).map (fun c => c ++ "\n")) := by
  induction files with
  | nil =>
      intro acc
      simp [concatAll, String.append_empty]
  | cons f rest IH =>
      intro acc
      cases hr : readSnapshot snap f with
      | none => simp [List.foldl_cons, hr, IH, List.filterMap_cons]
      | some content =>
          simp only [List.foldl_cons, hr, IH, List.filterMap_cons, List.map_cons, concatAll]
          simp [String.append_assoc]

/-! ## Claim C6: style fallback concatenation -/

/-- C6 counterexample: with a single discovered stylesheet whose content is
"x", the fallback produces "x\n" (each contribution is newline-terminated),
not the newline-separated concatenation "x" the claim describes. -/
theorem style_fallback_counterexample :
    compileStylesText none [("/src/a.css", "x")]
        (findCSSDir "/src" [FSTree.file "a.css"]) ≠
      specSeparatedConcat [("/src/a.css", "x")]
        (findCSSDir "/src" [FSTree.file "a.css"]) := by
  have hcss : strEndsWith "a.css" ".css" = true := by decide
  have h1 : findCSSDir "/src" [FSTree.file "a.css"] = ["/src/a.css"] := by
    simp only [findCSSDir, hcss, if_true, List.append_nil]
    decide
  rw [h1]
  decide

/-- C6 (amended): when the extraction pipeline produces no output file, the
consolidated stylesheet text equals the concatenation — in recursive traversal
order — of the content of each discovered stylesheet file that still exists at
read time, each contribution followed by a single newline (newline-terminated
rather than newline-separated), files that disappeared between discovery and
read being skipped silently. -/
theorem style_fallback_amended (snap : List (String × String)) (root : String)
    (entries : List FSTree) :
    compileStylesText none snap (findCSSDir root entries) =
      concatAll (((findCSSDir root entries).filterMap (readSnapshot snap)).map
        (fun c => c ++ "\n")) := by
  show fallbackConcat snap (findCSSDir root entries) = _
  rw [fallbackConcat, fallbackConcat_go]
  cases h : concatAll (((findCSSDir root entries).filterMap (readSnapshot snap)).map
      (fun c => c ++ "\n")) with
  | mk data => rfl

/-! ## Temp-directory discipline of the webpack stages

`compileReactComponents` (src/scripts/lwcWrapperGenerator.js lines 18-157)
and `compileStyles` (lines 183-292) each create a temporary build directory,
run webpack, and on the successful read path call
`fs.rmSync(tempDir, { recursive: true, force: true })` before resolving. On
the webpack-error path they reject immediately; on the read-error path they
reject from the catch block; neither error path removes the directory. -/

/-- Outcome of the webpack callback: compilation error, or success with the
output file present (readable) or absent (the read throws). -/
inductive WebpackRun where
  | fails
  | succeeds (output : Option String)
  deriving DecidableEq

/-- Existence of the two stage-owned temporary directories. -/
structure TempFS where
  tempBuildDir : Bool
  tempCssDir : Bool
  deriving DecidableEq

/-- The promise settles either resolved with text or rejected with an error
message. -/
inductive StageOutcome where
  | resolved (text : String)
  | rejected (msg : String)
  deriving DecidableEq

/-- `compileReactComponents`: create `temp-build`, run webpack, then read the
compiled output and clean up only on the successful read. -/
def compileReactComponents (run : WebpackRun) (fs0 : TempFS) : TempFS × StageOutcome :=
  let fs1 : TempFS := { fs0 with tempBuildDir := true }
  match run with
  | WebpackRun.fails => (fs1, StageOutcome.rejected "Webpack compilation failed")
  | WebpackRun.succeeds none => (fs1, StageOutcome.rejected "Error reading compiled output")
  | WebpackRun.succeeds (some js) =>
      ({ fs1 with tempBuildDir := false }, StageOutcome.resolved js)

/-- `compileStyles`: create `temp-css-build`, run webpack, then read the
extracted stylesheet (or fall back) and clean up only on the successful
read. -/
def compileStylesStage (run : WebpackRun) (fs0 : TempFS) : TempFS × StageOutcome :=
  let fs1 : TempFS := { fs0 with tempCssDir := true }
  match run with
  | WebpackRun.fails => (fs1, StageOutcome.rejected "CSS compilation failed")
  | WebpackRun.succeeds none => (fs1, StageOutcome.rejected "Error reading compiled CSS")
  | WebpackRun.succeeds (some css) =>
      ({ fs1 with tempCssDir := false }, StageOutcome.resolved css)

/-! ## Claim C7: temp directories -/

/-- C7 counterexample: when webpack reports a compilation error, the stage
reports failure while its temporary directory still exists — the temp
directory is not removed on this exit path. -/
theorem temp_dir_counterexample :
    (compileReactComponents WebpackRun.fails ⟨false, false⟩).1.tempBuildDir = true ∧
    (compileReactComponents WebpackRun.fails ⟨false, false⟩).2 =
      StageOutcome.rejected "Webpack compilation failed" ∧
    (compileStylesStage WebpackRun.fails ⟨false, false⟩).1.tempCssDir = true ∧
    (compileStylesStage WebpackRun.fails ⟨false, false⟩).2 =
      StageOutcome.rejected "CSS compilation failed" := by
  refine ⟨rfl, rfl, rfl, rfl⟩

/-- C7 (amended): each webpack stage removes its temporary directory before
reporting its result exactly on the successful exit path; on the compiler
error and read error paths the stage reports failure with the temporary
directory left in place. -/
theorem temp_dir_removed_iff_success (run : WebpackRun) (fs0 : TempFS) :
    ((compileReactComponents run fs0).1.tempBuildDir = false ↔
      ∃ t, (compileReactComponents run fs0).2 = StageOutcome.resolved t) ∧
    ((compileStylesStage run fs0).1.tempCssDir = false ↔
      ∃ t, (compileStylesStage run fs0).2 = StageOutcome.resolved t) := by
  cases run with
  | fails => simp [compileReactComponents, compileStylesStage]
  | succeeds output =>
      cases output with
      | none => simp [compileReactComponents, compileStylesStage]
      | some t => simp [compileReactComponents, compileStylesStage]

/-! ## Auxiliary library-wrapper generation

`generateReactJSFile` (src/scripts/lwcWrapperGenerator.js lines 583-609) and
`generateReactDOMJSFile` (lines 614-640): if the UMD production build of the
library exists in `node_modules` its text is embedded; otherwise a warning is
logged and a placeholder comment is embedded instead; the module file is
written in both cases and the surrounding `generateReactImport` /
`generateReactDOMImport` (lines 456-503) return a success result. -/

/-- The placeholder embedded when the React library resource is missing. -/
def reactStubText : String := "// React library not found"

/-- The placeholder embedded when the ReactDOM library resource is missing. -/
def reactDomStubText : String := "// ReactDOM library not found"

/-- The emitted `react.js` module content for a given embedded library text. -/
def reactJsContent (lib : String) : String :=
  "// Execute the React library code\n" ++ lib ++
  "\n\n// Export React instance\nexport default window.React;"

/-- The emitted `reactdom.js` module content for a given embedded library
text. -/
def reactDomJsContent (lib : String) : String :=
  "// Execute the ReactDOM library code\n" ++ lib ++
  "\n\n// Export ReactDOM instance\nexport default window.ReactDOM;"

/-- Result of generating one auxiliary library-wrapper component. -/
structure GenResult where
  success : Bool
  warned : Bool
  jsFile : String
  deriving DecidableEq

/-- `generateReactImport`, with the library resource file's content when it
exists. -/
def generateReactImport (resource : Option String) : GenResult :=
  match resource with
  | some lib => { success := true, warned := false, jsFile := reactJsContent lib }
  | none => { success := true, warned := true, jsFile := reactJsContent reactStubText }

/-- `generateReactDOMImport`, with the library resource file's content when it
exists. -/
def generateReactDOMImport (resource : Option String) : GenResult :=
  match resource with
  | some lib => { success := true, warned := false, jsFile := reactDomJsContent lib }
  | none => { success := true, warned := true, jsFile := reactDomJsContent reactDomStubText }

/-! ## Claim C8: degraded library resource -/

/-- C8: with the third-party library resource file missing, auxiliary
component generation still returns a success result, emits its non-fatal
warning, and writes a script module that embeds the recognizable placeholder
stub in place of the library source. -/
theorem missing_library_degraded :
    (generateReactImport none).success = true ∧
    (generateReactImport none).warned = true ∧
    (generateReactImport none).jsFile = reactJsContent reactStubText ∧
    reactStubText.toList.IsInfix (generateReactImport none).jsFile.toList ∧
    (generateReactDOMImport none).success = true ∧
    (generateReactDOMImport none).warned = true ∧
    (generateReactDOMImport none).jsFile = reactDomJsContent reactDomStubText ∧
    reactDomStubText.toList.IsInfix (generateReactDOMImport none).jsFile.toList := by
  refine ⟨rfl, rfl, rfl, ?_, rfl, rfl, rfl, ?_⟩
  · exact ⟨"// Execute the React library code\n".toList,
      "\n\n// Export React instance\nexport default window.React;".toList, by decide⟩
  · exact ⟨"// Execute the ReactDOM library code\n".toList,
      "\n\n// Export ReactDOM instance\nexport default window.ReactDOM;".toList, by decide⟩
